import Mathlib

/-!
# Lazy-loading gallery: `ImageGallery.js`

A shallow embedding of `src/components/ImageGallery.js` (the `LazyImage` cell,
the `App` controller and the `PerformanceAnalysis` panel) together with the
properties of the gallery that are settled against it.

Modelling conventions.

* A JavaScript number that carries a timestamp or a duration is the rational it
  denotes (every finite double is a rational).  The operator `-` is the exact
  difference rounded to the nearest binary64 value, ties to even (`jsSub`).
  `NaN` and the infinities are not represented: a difference that binary64
  rounds to an infinity is outside the model.
* A handler that may raise a JavaScript exception returns `Except String _`;
  `.error` is a thrown exception.
* React state of a component is an explicit record; a `setX` call is a field
  update.  Handlers delivered after teardown are modelled as still running
  (React ignores their state updates), which only enlarges the set of
  reachable states.
-/

namespace ImageGallery

/-! ## JavaScript values -/

/-- A JavaScript value as far as the gallery handles one: what `response.json()`
can resolve to, plus `undefined` (the result of reading an absent property).
Objects are association lists from property name to value. -/
inductive JsVal where
  | undefined : JsVal
  | null : JsVal
  | bool (b : Bool) : JsVal
  | num (q : ℚ) : JsVal
  | str (s : String) : JsVal
  | arr (xs : List JsVal) : JsVal
  | obj (fields : List (String × JsVal)) : JsVal

/-- Property read `v.k` for a data property name `k` (the gallery reads `id`,
`urls`, `thumb`, `full` and `alt_description`): reading from `undefined` or
`null` throws a `TypeError`, an object yields the stored value or `undefined`,
and every other value has no such property. -/
def getProp (v : JsVal) (k : String) : Except String JsVal :=
  match v with
  | .undefined => .error "TypeError: cannot read properties of undefined"
  | .null => .error "TypeError: cannot read properties of null"
  | .obj fields =>
    match fields.lookup k with
    | some x => .ok x
    | none => .ok .undefined
  | _ => .ok .undefined

/-! ## Numbers -/

/-- The integer nearest to `q`, the even one on a tie. -/
def roundHalfEven (q : ℚ) : ℤ :=
  let f : ℤ := ⌊q⌋
  if q - f < 1 / 2 then f
  else if 1 / 2 < q - f then f + 1
  else if f % 2 = 0 then f
  else f + 1

/-- The exponent of the spacing of binary64 values around `x`: 52 below the
exponent of `x` (53 significant bits), and never below `-1074`, the spacing of
the subnormal values. -/
def ulpExponent (x : ℚ) : ℤ :=
  max (Int.log 2 |x| - 52) (-1074)

/-- The binary64 value nearest to `x`, ties to even (the rounding of every
arithmetic operation on JavaScript numbers), for `x` that binary64 does not
round to an infinity (magnitude below `2^1024 - 2^970`). -/
def roundDouble (x : ℚ) : ℚ :=
  if x = 0 then 0
  else
    (if x < 0 then -1 else 1) * (roundHalfEven (|x| / 2 ^ ulpExponent x) : ℚ) *
      2 ^ ulpExponent x

/-- The JavaScript expression `x - y` on numbers. -/
def jsSub (x y : ℚ) : ℚ :=
  roundDouble (x - y)

/-- Whether a rational is a finite binary64 value. -/
def isDouble (x : ℚ) : Bool :=
  decide (roundDouble x = x) && decide (|x| < 2 ^ 1024)

/-! ## Number formatting -/

/-- Fixed notation with two fraction digits for the magnitude `hundredths / 100`,
with a leading minus sign when `neg` is set. -/
def fixed2 (neg : Bool) (hundredths : Nat) : String :=
  (if neg then "-" else "") ++ toString (hundredths / 100) ++ "." ++
    toString (hundredths / 10 % 10) ++ toString (hundredths % 10)

/-- The integer `n` for which `n / 100` is closest to the magnitude of `x`, the larger
one on a tie (the choice `Number.prototype.toFixed` makes). -/
def nearestHundredths (x : ℚ) : Nat :=
  (Rat.floor (|x| * 100 + 1 / 2)).toNat

/-- The text `x.toFixed(2)` for a finite number `x`.  Magnitudes from `10^21` on are not
printed in fixed notation: ECMAScript falls back to `Number::toString`, which is
the parameter `numberToString`. -/
def toFixed2 (numberToString : ℚ → String) (x : ℚ) : String :=
  if (10 : ℚ) ^ 21 ≤ |x| then
    (if x < 0 then "-" else "") ++ numberToString |x|
  else
    fixed2 (decide (x < 0)) (nearestHundredths x)

/-! ## The `LazyImage` cell -/

/-- A DOM element, by identity. -/
abbrev Elem := Nat

/-- The props `{ src, alt, fullSrc, startTime }` of `LazyImage`. -/
structure Props where
  src : JsVal
  alt : JsVal
  fullSrc : JsVal
  startTime : ℚ

/-- An `IntersectionObserverEntry`, as far as the callback reads it. -/
structure Entry where
  isIntersecting : Bool
  target : Elem

/-- One mounted `LazyImage`: its props, its two state hooks, its ref, and the
bookkeeping of the `IntersectionObserver` the mount effect created
(`observed`: the targets it currently observes; `unobserveCalls`: every
`unobserve` call made on it, in order) and of `window.open` (`opened`). -/
structure Cell where
  props : Props
  isVisible : Bool
  loadTime : ℚ
  imageRef : Option Elem
  observed : List Elem
  unobserveCalls : List Elem
  opened : List JsVal

/-- The call `observer.observe(target)` on an element. -/
def observe (c : Cell) (target : Elem) : Cell :=
  { c with observed := if target ∈ c.observed then c.observed else c.observed ++ [target] }

/-- The call `observer.unobserve(target)` on an element: the target is dropped from the
observed set (a no-op on the set when it is not observed) and the call is logged. -/
def unobserve (c : Cell) (target : Elem) : Cell :=
  { c with
    observed := c.observed.filter (fun t => t != target)
    unobserveCalls := c.unobserveCalls ++ [target] }

/-- The call `observer.observe(x)` on a possibly-null value: the DOM throws a `TypeError`
when the argument is not an element. -/
def observeRef (c : Cell) (x : Option Elem) : Except String Cell :=
  match x with
  | some target => .ok (observe c target)
  | none => .error "TypeError: parameter 1 is not of type Element"

/-- The call `observer.unobserve(x)` on a possibly-null value: the DOM throws a
`TypeError` when the argument is not an element. -/
def unobserveRef (c : Cell) (x : Option Elem) : Except String Cell :=
  match x with
  | some target => .ok (unobserve c target)
  | none => .error "TypeError: parameter 1 is not of type Element"

/-- The body of the `entries.forEach` callback (lines 11-16) for one entry. -/
def onEntry (c : Cell) (entry : Entry) : Cell :=
  if entry.isIntersecting then
    unobserve { c with isVisible := true } entry.target
  else c

/-- The `IntersectionObserver` callback (lines 10-17): `entries.forEach`. -/
def observerCallback (c : Cell) (entries : List Entry) : Cell :=
  entries.foldl onEntry c

/-- The state of a `LazyImage` after its first render, before its effect ran:
`useState(false)`, `useState(0)`, and the ref attached to the rendered `img`. -/
def firstRender (p : Props) (img : Elem) : Cell :=
  { props := p, isVisible := false, loadTime := 0, imageRef := some img,
    observed := [], unobserveCalls := [], opened := [] }

/-- The body of the mount effect (lines 19-21). -/
def mountEffect (c : Cell) : Except String Cell :=
  if c.imageRef.isSome then observeRef c c.imageRef else .ok c

/-- The cleanup returned by the mount effect (lines 23-27). -/
def cleanup (c : Cell) : Except String Cell :=
  if c.imageRef.isSome then unobserveRef c c.imageRef else .ok c

/-- A mounted cell: first render, then the mount effect. -/
def mount (p : Props) (img : Elem) : Except String Cell :=
  mountEffect (firstRender p img)

/-- The handler `handleLoad` (lines 30-34), with `endTime` the reading of `performance.now()`. -/
def handleLoad (c : Cell) (endTime : ℚ) : Cell :=
  let imageLoadTime := jsSub endTime c.props.startTime
  { c with loadTime := imageLoadTime }

/-- The handler `handleClick` (lines 36-38): `window.open(fullSrc, '_blank')`. -/
def handleClick (c : Cell) : Cell :=
  { c with opened := c.opened ++ [c.props.fullSrc] }

/-- The `src` attribute rendered on the `img` (line 44). -/
def imgSrc (c : Cell) : JsVal :=
  if c.isVisible then c.props.src else .str ""

/-- The child of the overlay `div` (line 51): `none` when the `&&` yields
`false` and nothing is rendered, otherwise the text. -/
def overlay (numberToString : ℚ → String) (c : Cell) : Option String :=
  if c.loadTime > 0 then
    some ("Load Time: " ++ toFixed2 numberToString c.loadTime ++ " ms")
  else none

/-- Unmounting a cell.  React clears the ref of the removed `img`
(`imageRef.current = null`) and runs the effect cleanup; which of the two comes
first is up to the host and is the flag `refClearedFirst` (React 17 and later
clear the ref first, React 16 runs the cleanup first). -/
def teardown (c : Cell) (refClearedFirst : Bool) : Except String Cell :=
  if refClearedFirst then cleanup { c with imageRef := none }
  else (cleanup c).map (fun c' => { c' with imageRef := none })

/-- What the host can deliver to a mounted cell. -/
inductive Event where
  | intersection (entries : List Entry) : Event
  | load (endTime : ℚ) : Event
  | click : Event
  | teardown (refClearedFirst : Bool) : Event

/-- The effect of one event on a cell. -/
def step (c : Cell) (ev : Event) : Except String Cell :=
  match ev with
  | .intersection entries => .ok (observerCallback c entries)
  | .load endTime => .ok (handleLoad c endTime)
  | .click => .ok (handleClick c)
  | .teardown refClearedFirst => teardown c refClearedFirst

/-- The states a cell goes through under a sequence of events, the starting
state first; an exception thrown by a handler ends the run with that error. -/
def runTrace (c : Cell) : List Event → Except String (List Cell)
  | [] => .ok [c]
  | ev :: evs =>
    match step c ev with
    | .ok c' =>
      match runTrace c' evs with
      | .ok tr => .ok (c :: tr)
      | .error e => .error e
    | .error e => .error e

/-- The number of positions at which a sequence of flags changes value. -/
def changes : List Bool → Nat
  | a :: b :: rest => (if a = b then 0 else 1) + changes (b :: rest)
  | _ => 0

/-- A re-render of a mounted cell by its parent: the component function runs
again with the new props, the state hooks and the ref keep their values. -/
def rerender (c : Cell) (p : Props) : Cell :=
  { c with props := p }

/-! ## The `App` controller -/

/-- A `<LazyImage key=... />` element produced by `App`. -/
structure CellElement where
  key : JsVal
  props : Props

/-- The element built for one image by the arrow function of `images.map`
(lines 93-101); `now` is the reading of `performance.now()` on line 99. -/
def lazyImageElement (image : JsVal) (now : ℚ) : Except String CellElement :=
  match getProp image "id" with
  | .error e => .error e
  | .ok key =>
    match getProp image "urls" with
    | .error e => .error e
    | .ok urls =>
      match getProp urls "thumb" with
      | .error e => .error e
      | .ok src =>
        match getProp image "alt_description" with
        | .error e => .error e
        | .ok alt =>
          match getProp urls "full" with
          | .error e => .error e
          | .ok fullSrc =>
            .ok { key := key, props := { src := src, alt := alt, fullSrc := fullSrc, startTime := now } }

/-- The call `images.map(...)` on the elements from index `i` on; `clock j` is the
reading of `performance.now()` made for the element at index `j`. -/
def mapImages (clock : Nat → ℚ) (i : Nat) : List JsVal → Except String (List CellElement)
  | [] => .ok []
  | image :: rest =>
    match lazyImageElement image (clock i) with
    | .error e => .error e
    | .ok el =>
      match mapImages clock (i + 1) rest with
      | .error e => .error e
      | .ok els => .ok (el :: els)

/-- The children of the `image-gallery` div (line 93):
`Array.isArray(images) && images.map(...)`; a `false` renders nothing. -/
def renderCells (images : JsVal) (clock : Nat → ℚ) : Except String (List CellElement) :=
  match images with
  | .arr xs => mapImages clock 0 xs
  | _ => .ok []

/-- A `PerformanceResourceTiming` entry, as far as the panel reads it. -/
structure ResourceTiming where
  name : String
  duration : ℚ

/-- The three state hooks of `App`, and the messages passed to `console.error`. -/
structure AppState where
  images : JsVal
  pageLoadTime : ℚ
  resourceTimings : List ResourceTiming
  consoleErrors : List String

/-- The state of `App` at its first render: `useState([])`, `useState(0)`,
`useState([])`. -/
def initialApp : AppState :=
  { images := .arr [], pageLoadTime := 0, resourceTimings := [], consoleErrors := [] }

/-- How the image-list request turns out. -/
inductive FetchOutcome where
  | fetchRejects (error : String) : FetchOutcome
  | jsonRejects (error : String) : FetchOutcome
  | parsed (data : JsVal) : FetchOutcome

/-- The two awaits of the `try` block (lines 70-71): the parsed body, or the
rejection that is thrown at the `await`. -/
def awaitData (o : FetchOutcome) : Except String JsVal :=
  match o with
  | .fetchRejects error => .error error
  | .jsonRejects error => .error error
  | .parsed data => .ok data

/-- The function `fetchImages` (lines 68-76): `setImages(data)` when the `try`
block completes, one `console.error` in the `catch` otherwise. -/
def fetchImages (st : AppState) (o : FetchOutcome) : Except String AppState :=
  match awaitData o with
  | .ok data => .ok { st with images := data }
  | .error error => .ok { st with consoleErrors := st.consoleErrors ++ [error] }

/-- The readings of the performance-timing facility at one instant:
`timeOrigin` is the page's time origin in milliseconds since the Unix epoch,
`navigationStart` is `performance.timing.navigationStart` (milliseconds since
the Unix epoch) and `now` is `performance.now()` (milliseconds since the time
origin). -/
structure HostSnapshot where
  timeOrigin : ℚ
  navigationStart : ℚ
  now : ℚ

/-- The function `trackPageLoadTime` (lines 78-82). -/
def trackPageLoadTime (st : AppState) (h : HostSnapshot) : AppState :=
  let pageLoadStartTime := h.navigationStart
  let pageLoadEndTime := h.now
  { st with pageLoadTime := jsSub pageLoadEndTime pageLoadStartTime }

/-- The function `trackResourceTimings` (lines 84-87). -/
def trackResourceTimings (st : AppState) (resources : List ResourceTiming) : AppState :=
  { st with resourceTimings := resources }

/-- The paragraph of `PerformanceAnalysis` that shows the page load time (line 111). -/
def pageLoadLine (numberToString : ℚ → String) (pageLoadTime : ℚ) : String :=
  "Время загрузки страницы: " ++ toFixed2 numberToString pageLoadTime ++ " ms"

/-- One list item of `PerformanceAnalysis` (line 115). -/
def resourceLine (numberToString : ℚ → String) (resource : ResourceTiming) : String :=
  resource.name ++ " - Время загрузки: " ++ toFixed2 numberToString resource.duration ++ " ms"

/-- The instant of a host snapshot in milliseconds since the Unix epoch. -/
def snapshotInstant (h : HostSnapshot) : ℚ :=
  h.timeOrigin + h.now

/-- The elapsed duration between navigation start and the snapshot, both on the
Unix-epoch time base. -/
def elapsedSinceNavigationStart (h : HostSnapshot) : ℚ :=
  snapshotInstant h - h.navigationStart

/-! ## A cell across renders of `App` -/

/-- What happens to a mounted cell whose key stays in the list: a host event,
or a render of `App`, which calls `performance.now()` (reading `now`) for the
cell's `startTime` prop and re-renders the cell with the fresh props. -/
inductive Update where
  | event (ev : Event) : Update
  | appRender (now : ℚ) : Update

/-- The cell created for `image` by the render of `App` that first lists it;
`now` is that render's reading of `performance.now()`. -/
def instantiate (image : JsVal) (now : ℚ) (img : Elem) : Except String Cell :=
  match lazyImageElement image now with
  | .ok el => mount el.props img
  | .error e => .error e

/-- The effect of one update on the mounted cell of `image`. -/
def applyUpdate (image : JsVal) (c : Cell) (u : Update) : Except String Cell :=
  match u with
  | .event ev => step c ev
  | .appRender now =>
    match lazyImageElement image now with
    | .ok el => .ok (rerender c el.props)
    | .error e => .error e

/-- A sequence of updates, in order. -/
def applyUpdates (image : JsVal) (c : Cell) : List Update → Except String Cell
  | [] => .ok c
  | u :: us =>
    match applyUpdate image c u with
    | .ok c' => applyUpdates image c' us
    | .error e => .error e

/-- The reading of `performance.now()` made by the latest render of `App`, where
`t0` is the reading of the render that created the cell. -/
def lastRenderTime (t0 : ℚ) : List Update → ℚ
  | [] => t0
  | .appRender now :: us => lastRenderTime now us
  | .event _ :: us => lastRenderTime t0 us

/-- Whether an update is a render of `App`. -/
def Update.isAppRender : Update → Bool
  | .appRender _ => true
  | .event _ => false

/-! ## Image records -/

/-- Whether a parsed value is an image record: an object with `id`,
`alt_description` and an object `urls` that has `thumb` and `full`. -/
def isImageRecord : JsVal → Bool
  | .obj fields =>
    match fields.lookup "urls" with
    | some (.obj urls) =>
      (fields.lookup "id").isSome && (fields.lookup "alt_description").isSome &&
        (urls.lookup "thumb").isSome && (urls.lookup "full").isSome
    | _ => false
  | _ => false

/-- The value stored under `k` in a record (`undefined` when there is none). -/
def fieldOf (v : JsVal) (k : String) : JsVal :=
  match v with
  | .obj fields => (fields.lookup k).getD .undefined
  | _ => .undefined

/-- The `LazyImage` element a record stands for: keyed by the record's `id`, with
`src` its `urls.thumb`, `fullSrc` its `urls.full`, `alt` its `alt_description`,
and `startTime` the given clock reading. -/
def elementOfRecord (image : JsVal) (now : ℚ) : CellElement :=
  { key := fieldOf image "id",
    props :=
      { src := fieldOf (fieldOf image "urls") "thumb"
        alt := fieldOf image "alt_description"
        fullSrc := fieldOf (fieldOf image "urls") "full"
        startTime := now } }

/-- Whether a parsed value is an array. -/
def isArray : JsVal → Bool
  | .arr _ => true
  | _ => false

/-! ## The gallery of cells -/

/-- The cells mounted for a list of `LazyImage` elements; the `img` of the cell
at index `j` is the element `j`. -/
def mountAll (i : Nat) : List CellElement → Except String (List Cell)
  | [] => .ok []
  | el :: els =>
    match mount el.props i with
    | .error e => .error e
    | .ok c =>
      match mountAll (i + 1) els with
      | .error e => .error e
      | .ok cs => .ok (c :: cs)

/-- An event delivered to the cell at index `k` of a gallery. -/
def galleryStep (g : List Cell) (k : Nat) (ev : Event) : Except String (List Cell) :=
  match g[k]? with
  | none => .ok g
  | some c =>
    match step c ev with
    | .ok c' => .ok (g.set k c')
    | .error e => .error e

/-- The gallery states reachable from `g0` by delivering events to cells. -/
inductive GalleryReachable (g0 : List Cell) : List Cell → Prop where
  | init : GalleryReachable g0 g0
  | next {g g' : List Cell} (k : Nat) (ev : Event) :
      GalleryReachable g0 g → galleryStep g k ev = .ok g' → GalleryReachable g0 g'

/-- Whether the host delivers an event in a state: an image-load completion is
delivered only while the rendered `src` is not the empty string. -/
def Deliverable (c : Cell) : Event → Prop
  | .load _ => imgSrc c ≠ .str ""
  | _ => True

/-- The states of one cell reachable from `c0` under deliverable events. -/
inductive Reachable (c0 : Cell) : Cell → Prop where
  | init : Reachable c0 c0
  | next {c c' : Cell} (ev : Event) :
      Reachable c0 c → Deliverable c ev → step c ev = .ok c' → Reachable c0 c'

/-- Whether an event leaves a cell that has not intersected in that condition:
an observer callback without an intersecting entry, a load completion or a click. -/
def Event.beforeIntersection : Event → Bool
  | .intersection entries => entries.all (fun e => !e.isIntersecting)
  | .load _ => true
  | .click => true
  | .teardown _ => false

/-- The condition of a mounted cell before any intersecting entry reached it. -/
structure Pending (img : Elem) (c : Cell) : Prop where
  hidden : c.isVisible = false
  noCalls : c.unobserveCalls = []
  observing : c.observed = [img]
  attached : c.imageRef = some img

/-! ## Sample inputs -/

/-- A record of the shape the photo API returns. -/
def sampleRecord : JsVal :=
  .obj [("id", .str "a1"), ("alt_description", .str "a lake"),
    ("urls", .obj [("full", .str "https://img/full/a1"), ("thumb", .str "https://img/thumb/a1")])]

/-- A second record, with no description. -/
def sampleRecord2 : JsVal :=
  .obj [("id", .str "b2"), ("alt_description", .null),
    ("urls", .obj [("full", .str "https://img/full/b2"), ("thumb", .str "https://img/thumb/b2")])]

/-- The props `App` passes for `sampleRecord` when `performance.now()` reads 10. -/
def sampleProps : Props :=
  { src := .str "https://img/thumb/a1", alt := .str "a lake",
    fullSrc := .str "https://img/full/a1", startTime := 10 }

/-- The body the photo API sends with a 401 status: it parses, and is not an array. -/
def sampleErrorBody : JsVal :=
  .obj [("errors", .arr [.str "OAuth error: The access token is invalid"])]

/-- A snapshot taken 1500 ms after a navigation that started at epoch time
1700000000000 ms, the time origin of the page being the navigation start. -/
def sampleSnapshot : HostSnapshot :=
  { timeOrigin := 1700000000000, navigationStart := 1700000000000, now := 1500 }

/-- The props `App` passes for `sampleRecord2` when `performance.now()` reads 11. -/
def sampleProps2 : Props :=
  { src := .str "https://img/thumb/b2", alt := .null,
    fullSrc := .str "https://img/full/b2", startTime := 11 }

/-- The two `LazyImage` elements of a gallery of the two sample records. -/
def sampleElements : List CellElement :=
  [{ key := .str "a1", props := sampleProps }, { key := .str "b2", props := sampleProps2 }]

/-- The double nearest to 100.005. -/
def sampleStart : ℚ := 879653282685911 / 8796093022208

/-- The double nearest to 1124.01. -/
def sampleEnd : ℚ := 4943448258946007 / 4398046511104

/-- The props `App` passes for `sampleRecord` when `performance.now()` reads
`sampleStart`. -/
def sampleTimedProps : Props :=
  { src := .str "https://img/thumb/a1", alt := .str "a lake",
    fullSrc := .str "https://img/full/a1", startTime := sampleStart }

/-- A visible cell of `sampleRecord` whose baseline is `sampleStart`. -/
def sampleTimedCell : Cell :=
  { props := sampleTimedProps, isVisible := true, loadTime := 0, imageRef := some 0,
    observed := [], unobserveCalls := [0], opened := [] }

/-- The cell of `sampleRecord` after it intersected the viewport. -/
def sampleVisibleCell : Cell :=
  { props := sampleProps, isVisible := true, loadTime := 0, imageRef := some 0,
    observed := [], unobserveCalls := [0], opened := [] }

/-! ## Facts about the observer callback -/

theorem onEntry_isVisible_mono (c : Cell) (e : Entry) (h : c.isVisible = true) :
    (onEntry c e).isVisible = true := by
  unfold onEntry
  split <;> simp [unobserve, h]

theorem observerCallback_isVisible_mono (entries : List Entry) (c : Cell)
    (h : c.isVisible = true) : (observerCallback c entries).isVisible = true := by
  induction entries generalizing c with
  | nil => simpa [observerCallback] using h
  | cons e es ih =>
    simp only [observerCallback, List.foldl_cons]
    exact ih (onEntry c e) (onEntry_isVisible_mono c e h)

theorem onEntry_props (c : Cell) (e : Entry) : (onEntry c e).props = c.props := by
  unfold onEntry
  split <;> simp [unobserve]

theorem observerCallback_props (entries : List Entry) (c : Cell) :
    (observerCallback c entries).props = c.props := by
  induction entries generalizing c with
  | nil => rfl
  | cons e es ih =>
    simp only [observerCallback, List.foldl_cons]
    exact (ih (onEntry c e)).trans (onEntry_props c e)

theorem onEntry_loadTime (c : Cell) (e : Entry) : (onEntry c e).loadTime = c.loadTime := by
  unfold onEntry
  split <;> simp [unobserve]

theorem observerCallback_loadTime (entries : List Entry) (c : Cell) :
    (observerCallback c entries).loadTime = c.loadTime := by
  induction entries generalizing c with
  | nil => rfl
  | cons e es ih =>
    simp only [observerCallback, List.foldl_cons]
    exact (ih (onEntry c e)).trans (onEntry_loadTime c e)

theorem onEntry_not_observed (c : Cell) (e : Entry) (t : Elem) (h : t ∉ c.observed) :
    t ∉ (onEntry c e).observed := by
  unfold onEntry
  split
  · simp only [unobserve, List.mem_filter, not_and]
    intro hm
    exact absurd hm h
  · exact h

theorem observerCallback_not_observed (entries : List Entry) (c : Cell) (t : Elem)
    (h : t ∉ c.observed) : t ∉ (observerCallback c entries).observed := by
  induction entries generalizing c with
  | nil => simpa [observerCallback] using h
  | cons e es ih =>
    simp only [observerCallback, List.foldl_cons]
    exact ih (onEntry c e) (onEntry_not_observed c e t h)

theorem onEntry_intersecting (c : Cell) (e : Entry) (h : e.isIntersecting = true) :
    (onEntry c e).isVisible = true ∧ e.target ∉ (onEntry c e).observed := by
  simp [onEntry, h, unobserve]

theorem observerCallback_of_none_intersecting (entries : List Entry) (c : Cell)
    (h : ∀ e ∈ entries, e.isIntersecting = false) : observerCallback c entries = c := by
  induction entries generalizing c with
  | nil => rfl
  | cons e es ih =>
    have he : e.isIntersecting = false := h e (List.mem_cons_self e es)
    have hstep : onEntry c e = c := by simp [onEntry, he]
    simp only [observerCallback, List.foldl_cons, hstep]
    exact ih c (fun x hx => h x (List.mem_cons_of_mem e hx))

theorem observerCallback_of_some_intersecting (entries : List Entry) (c : Cell) :
    ∀ e ∈ entries, e.isIntersecting = true →
      (observerCallback c entries).isVisible = true ∧
        e.target ∉ (observerCallback c entries).observed := by
  induction entries generalizing c with
  | nil => intro e he; simp at he
  | cons x xs ih =>
    intro e he hi
    simp only [observerCallback, List.foldl_cons]
    rcases List.mem_cons.mp he with rfl | hmem
    · obtain ⟨hv, ho⟩ := onEntry_intersecting c e hi
      exact ⟨observerCallback_isVisible_mono xs _ hv, observerCallback_not_observed xs _ _ ho⟩
    · exact ih (onEntry c x) e hmem hi

/-! ## Facts about single steps -/

theorem cleanup_ok (c : Cell) :
    cleanup c = .ok (match c.imageRef with
      | some img => unobserve c img
      | none => c) := by
  unfold cleanup
  cases h : c.imageRef <;> simp [unobserveRef]

theorem teardown_ok (c : Cell) (b : Bool) :
    ∃ c', teardown c b = .ok c' ∧ c'.isVisible = c.isVisible ∧ c'.props = c.props ∧
      c'.loadTime = c.loadTime := by
  cases b
  · cases h : c.imageRef <;> simp [teardown, cleanup, unobserveRef, Except.map, unobserve, h]
  · simp [teardown, cleanup]

theorem step_ok (c : Cell) (ev : Event) : ∃ c', step c ev = .ok c' := by
  cases ev with
  | intersection entries => exact ⟨_, rfl⟩
  | load endTime => exact ⟨_, rfl⟩
  | click => exact ⟨_, rfl⟩
  | teardown b =>
    obtain ⟨c', h, _⟩ := teardown_ok c b
    exact ⟨c', h⟩

theorem step_isVisible_mono (c c' : Cell) (ev : Event) (hs : step c ev = .ok c')
    (h : c.isVisible = true) : c'.isVisible = true := by
  cases ev with
  | intersection entries =>
    simp only [step, Except.ok.injEq] at hs
    subst hs
    exact observerCallback_isVisible_mono entries c h
  | load endTime =>
    simp only [step, Except.ok.injEq] at hs
    subst hs
    simpa [handleLoad] using h
  | click =>
    simp only [step, Except.ok.injEq] at hs
    subst hs
    simpa [handleClick] using h
  | teardown b =>
    obtain ⟨d, hd, hv, _⟩ := teardown_ok c b
    simp only [step] at hs
    rw [hd] at hs
    cases hs
    rw [hv]; exact h

theorem step_props (c c' : Cell) (ev : Event) (hs : step c ev = .ok c') :
    c'.props = c.props := by
  cases ev with
  | intersection entries =>
    simp only [step, Except.ok.injEq] at hs
    subst hs
    exact observerCallback_props entries c
  | load endTime =>
    simp only [step, Except.ok.injEq] at hs
    subst hs
    rfl
  | click =>
    simp only [step, Except.ok.injEq] at hs
    subst hs
    rfl
  | teardown b =>
    obtain ⟨d, hd, _, hp, _⟩ := teardown_ok c b
    simp only [step] at hs
    rw [hd] at hs
    cases hs
    exact hp

theorem mount_ok (p : Props) (img : Elem) :
    mount p img = .ok { firstRender p img with observed := [img] } := by
  simp [mount, mountEffect, firstRender, observeRef, observe]

/-! ## Facts about runs -/

theorem runTrace_nil (c : Cell) : runTrace c [] = .ok [c] := rfl

theorem runTrace_cons (c : Cell) (ev : Event) (evs : List Event) :
    ∃ c' tr, step c ev = .ok c' ∧ runTrace c' evs = .ok tr ∧
      runTrace c (ev :: evs) = .ok (c :: tr) := by
  induction evs generalizing c ev with
  | nil =>
    obtain ⟨c', hc⟩ := step_ok c ev
    exact ⟨c', [c'], hc, rfl, by simp [runTrace, hc]⟩
  | cons e es ih =>
    obtain ⟨c', hc⟩ := step_ok c ev
    obtain ⟨c'', tr, _, _, h3⟩ := ih c' e
    exact ⟨c', c' :: tr, hc, h3, by rw [runTrace, hc]; simp only; rw [h3]⟩

theorem runTrace_total (c : Cell) (evs : List Event) :
    ∃ tr, runTrace c evs = .ok tr ∧ tr.length = evs.length + 1 ∧ tr.head? = some c := by
  induction evs generalizing c with
  | nil => exact ⟨[c], rfl, rfl, rfl⟩
  | cons ev evs ih =>
    obtain ⟨c', tr, _, h2, h3⟩ := runTrace_cons c ev evs
    obtain ⟨tr', h4, h5, _⟩ := ih c'
    rw [h2] at h4
    cases h4
    exact ⟨c :: tr, h3, by simp [h5], rfl⟩

theorem runTrace_all_visible (evs : List Event) (c : Cell) (tr : List Cell)
    (h : runTrace c evs = .ok tr) (hv : c.isVisible = true) :
    ∀ x ∈ tr, x.isVisible = true := by
  induction evs generalizing c tr with
  | nil =>
    simp only [runTrace, Except.ok.injEq] at h
    subst h
    simpa using hv
  | cons ev evs ih =>
    obtain ⟨c', tr', h1, h2, h3⟩ := runTrace_cons c ev evs
    rw [h3] at h
    cases h
    intro x hx
    rcases List.mem_cons.mp hx with rfl | hx
    · exact hv
    · exact ih c' tr' h2 (step_isVisible_mono _ c' ev h1 hv) x hx

theorem runTrace_pairwise (evs : List Event) (c : Cell) (tr : List Cell)
    (h : runTrace c evs = .ok tr) :
    tr.Pairwise (fun a b => a.isVisible = true → b.isVisible = true) := by
  induction evs generalizing c tr with
  | nil =>
    simp only [runTrace, Except.ok.injEq] at h
    subst h
    simp
  | cons ev evs ih =>
    obtain ⟨c', tr', h1, h2, h3⟩ := runTrace_cons c ev evs
    rw [h3] at h
    cases h
    refine List.pairwise_cons.mpr ⟨?_, ih c' tr' h2⟩
    intro b hb hv
    exact runTrace_all_visible evs c' tr' h2 (step_isVisible_mono _ c' ev h1 hv) b hb

theorem changes_all_true (l : List Bool) (h : ∀ b ∈ l, b = true) : changes l = 0 := by
  induction l with
  | nil => rfl
  | cons a l ih =>
    cases l with
    | nil => rfl
    | cons b rest =>
      have ha : a = true := h a (by simp)
      have hb : b = true := h b (by simp)
      have hrest := ih (fun x hx => h x (List.mem_cons_of_mem a hx))
      subst ha hb
      simp only [changes, hrest]
      simp

theorem runTrace_changes (evs : List Event) (c : Cell) (tr : List Cell)
    (h : runTrace c evs = .ok tr) : changes (tr.map (fun x => x.isVisible)) ≤ 1 := by
  induction evs generalizing c tr with
  | nil =>
    simp only [runTrace, Except.ok.injEq] at h
    subst h
    simp [changes]
  | cons ev evs ih =>
    obtain ⟨c', tr', h1, h2, h3⟩ := runTrace_cons c ev evs
    rw [h3] at h
    cases h
    obtain ⟨tr'', h4, _, h6⟩ := runTrace_total c' evs
    rw [h2] at h4
    cases h4
    cases tr' with
    | nil => simp at h6
    | cons d rest =>
      simp only [List.head?_cons, Option.some.injEq] at h6
      subst h6
      by_cases hd : d.isVisible = true
      · have hrest : changes ((d :: rest).map (fun x => x.isVisible)) = 0 := by
          apply changes_all_true
          intro b hb
          obtain ⟨x, hx, rfl⟩ := List.mem_map.mp hb
          exact runTrace_all_visible evs d (d :: rest) h2 hd x hx
        simp only [List.map_cons] at hrest ⊢
        simp only [changes, hrest]
        split <;> simp
      · have hc : c.isVisible = false := by
          cases hcv : c.isVisible with
          | false => rfl
          | true => exact absurd (step_isVisible_mono c d ev h1 hcv) hd
        have hd' : d.isVisible = false := by simpa using hd
        have := ih d (d :: rest) h2
        simp only [List.map_cons] at this ⊢
        simp only [changes, hc, hd']
        simpa [hd'] using this

/-! ## Facts about the gallery -/

theorem imgSrc_of_hidden (c : Cell) (h : c.isVisible = false) : imgSrc c = .str "" := by
  simp [imgSrc, h]

theorem imgSrc_of_visible (c : Cell) (h : c.isVisible = true) : imgSrc c = c.props.src := by
  simp [imgSrc, h]

theorem mountAll_spec (els : List CellElement) (i : Nat) :
    ∃ g0, mountAll i els = .ok g0 ∧ g0.length = els.length ∧
      ∀ (j : Nat) (c : Cell) (el : CellElement), g0[j]? = some c → els[j]? = some el →
        c = { firstRender el.props (i + j) with observed := [i + j] } := by
  induction els generalizing i with
  | nil => exact ⟨[], rfl, rfl, by simp⟩
  | cons el els ih =>
    obtain ⟨g, hg, hlen, hall⟩ := ih (i + 1)
    refine ⟨{ firstRender el.props i with observed := [i] } :: g, ?_, by simp [hlen], ?_⟩
    · rw [mountAll, mount_ok]
      simp only
      rw [hg]
    · intro j c el' hc hel
      cases j with
      | zero =>
        simp only [List.getElem?_cons_zero, Option.some.injEq] at hc hel
        subst hc hel
        rfl
      | succ j =>
        simp only [List.getElem?_cons_succ] at hc hel
        have := hall j c el' hc hel
        rw [this]
        have hij : i + 1 + j = i + (j + 1) := by omega
        rw [hij]

theorem galleryStep_spec (g g' : List Cell) (k : Nat) (ev : Event)
    (h : galleryStep g k ev = .ok g') :
    g'.length = g.length ∧
      ∀ (j : Nat) (c' : Cell), g'[j]? = some c' →
        ∃ c, g[j]? = some c ∧ c'.props = c.props ∧ (j ≠ k → c' = c) ∧
          (j = k → step c ev = .ok c') := by
  unfold galleryStep at h
  cases hk : g[k]? with
  | none =>
    rw [hk] at h
    simp only [Except.ok.injEq] at h
    subst h
    refine ⟨rfl, fun j c' hc => ⟨c', hc, rfl, fun _ => rfl, fun hjk => ?_⟩⟩
    subst hjk
    rw [hk] at hc
    cases hc
  | some c =>
    rw [hk] at h
    simp only at h
    obtain ⟨d, hd⟩ := step_ok c ev
    rw [hd] at h
    simp only [Except.ok.injEq] at h
    subst h
    refine ⟨by simp, ?_⟩
    intro j c' hc
    by_cases hjk : k = j
    · subst hjk
      rw [List.getElem?_set] at hc
      simp only [if_true] at hc
      split at hc
      · simp only [Option.some.injEq] at hc
        subst hc
        exact ⟨c, hk, step_props c _ ev hd, fun hne => absurd rfl hne, fun _ => hd⟩
      · cases hc
    · rw [List.getElem?_set_ne hjk] at hc
      exact ⟨c', hc, rfl, fun _ => rfl, fun h => absurd h.symm hjk⟩

theorem galleryReachable_props (g0 g : List Cell) (h : GalleryReachable g0 g) :
    g.length = g0.length ∧
      ∀ (j : Nat) (c : Cell), g[j]? = some c → ∃ c0, g0[j]? = some c0 ∧ c.props = c0.props := by
  induction h with
  | init => exact ⟨rfl, fun j c hc => ⟨c, hc, rfl⟩⟩
  | next k ev _ hstep ih =>
    obtain ⟨hlen, hall⟩ := galleryStep_spec _ _ k ev hstep
    refine ⟨hlen.trans ih.1, ?_⟩
    intro j c' hc'
    obtain ⟨c, hc, hp, _⟩ := hall j c' hc'
    obtain ⟨c0, hc0, hp0⟩ := ih.2 j c hc
    exact ⟨c0, hc0, hp.trans hp0⟩

/-! ## Facts about a cell that has not intersected -/

theorem pending_mount (p : Props) (img : Elem) :
    Pending img { firstRender p img with observed := [img] } :=
  ⟨rfl, rfl, rfl, rfl⟩

theorem pending_step (img : Elem) (c : Cell) (ev : Event) (hq : ev.beforeIntersection = true)
    (hc : Pending img c) : ∃ c', step c ev = .ok c' ∧ Pending img c' := by
  cases ev with
  | intersection entries =>
    refine ⟨c, ?_, hc⟩
    have hnone : ∀ e ∈ entries, e.isIntersecting = false := by
      intro e he
      have := List.all_eq_true.mp hq e he
      simpa using this
    simp [step, observerCallback_of_none_intersecting entries c hnone]
  | load endTime =>
    exact ⟨handleLoad c endTime, rfl, ⟨hc.hidden, hc.noCalls, hc.observing, hc.attached⟩⟩
  | click =>
    exact ⟨handleClick c, rfl, ⟨hc.hidden, hc.noCalls, hc.observing, hc.attached⟩⟩
  | teardown b => simp [Event.beforeIntersection] at hq

theorem pending_teardown (img : Elem) (c : Cell) (b : Bool) (hc : Pending img c) :
    ∃ cEnd, step c (.teardown b) = .ok cEnd ∧ cEnd.isVisible = false ∧
      (b = false → cEnd.unobserveCalls = [img] ∧ cEnd.observed = []) ∧
      (b = true → cEnd.unobserveCalls = [] ∧ cEnd.observed = [img]) := by
  obtain ⟨hv, hn, ho, ha⟩ := hc
  cases b
  · refine ⟨{ unobserve c img with imageRef := none }, ?_, ?_, ?_, ?_⟩
    · simp [step, teardown, cleanup, unobserveRef, ha, Except.map]
    · simpa [unobserve] using hv
    · intro _
      simp [unobserve, hn, ho]
    · intro h
      cases h
  · refine ⟨{ c with imageRef := none }, ?_, hv, ?_, ?_⟩
    · simp [step, teardown, cleanup]
    · intro h
      cases h
    · intro _
      exact ⟨hn, ho⟩

theorem pending_run (img : Elem) (evs : List Event) (b : Bool) (c : Cell)
    (hq : ∀ ev ∈ evs, ev.beforeIntersection = true) (hc : Pending img c) :
    ∃ tr cEnd, runTrace c (evs ++ [.teardown b]) = .ok tr ∧ tr.getLast? = some cEnd ∧
      tr ≠ [] ∧ (∀ x ∈ tr, imgSrc x = .str "") ∧
      (b = false → cEnd.unobserveCalls = [img] ∧ cEnd.observed = []) ∧
      (b = true → cEnd.unobserveCalls = [] ∧ cEnd.observed = [img]) := by
  induction evs generalizing c with
  | nil =>
    obtain ⟨cEnd, hstep, hv, h1, h2⟩ := pending_teardown img c b hc
    refine ⟨[c, cEnd], cEnd, ?_, rfl, by simp, ?_, h1, h2⟩
    · simp [runTrace, hstep]
    · intro x hx
      simp only [List.mem_cons, List.mem_singleton, List.not_mem_nil, or_false] at hx
      rcases hx with rfl | rfl
      · exact imgSrc_of_hidden _ hc.hidden
      · exact imgSrc_of_hidden _ hv
  | cons ev evs ih =>
    obtain ⟨c', hstep, hc'⟩ := pending_step img c ev (hq ev (List.mem_cons_self ev evs)) hc
    obtain ⟨tr, cEnd, hrun, hlast, hne, hsrc, h1, h2⟩ :=
      ih c' (fun e he => hq e (List.mem_cons_of_mem ev he)) hc'
    refine ⟨c :: tr, cEnd, ?_, ?_, by simp, ?_, h1, h2⟩
    · rw [List.cons_append, runTrace, hstep]
      simp only
      rw [hrun]
    · cases tr with
      | nil => exact absurd rfl hne
      | cons d rest => simpa using hlast
    · intro x hx
      rcases List.mem_cons.mp hx with rfl | hx
      · exact imgSrc_of_hidden _ hc.hidden
      · exact hsrc x hx

theorem teardown_with_ref_attached (p : Props) (img : Elem) (evs : List Event)
    (hquiet : ∀ ev ∈ evs, ev.beforeIntersection = true) :
    ∃ c0 tr cEnd, mount p img = .ok c0 ∧
      runTrace c0 (evs ++ [.teardown false]) = .ok tr ∧ tr.getLast? = some cEnd ∧
      (∀ c ∈ tr, imgSrc c = .str "") ∧
      cEnd.unobserveCalls = [img] ∧ cEnd.unobserveCalls.count img = 1 ∧
      img ∉ cEnd.observed := by
  obtain ⟨tr, cEnd, hrun, hlast, _, hsrc, h1, _⟩ :=
    pending_run img evs false _ hquiet (pending_mount p img)
  obtain ⟨hc, ho⟩ := h1 rfl
  exact ⟨_, tr, cEnd, mount_ok p img, hrun, hlast, hsrc, hc, by rw [hc]; simp,
    by rw [ho]; simp⟩

/-! ## Facts about reachable states of one cell -/

theorem reachable_loaded_visible (c0 c : Cell) (h0 : c0.loadTime = 0)
    (h : Reachable c0 c) : 0 < c.loadTime → c.isVisible = true := by
  induction h with
  | init =>
    intro hpos
    rw [h0] at hpos
    exact absurd hpos (lt_irrefl 0)
  | @next c c' ev _ hdel hstep ih =>
    intro hpos
    cases ev with
    | intersection entries =>
      simp only [step, Except.ok.injEq] at hstep
      subst hstep
      rw [observerCallback_loadTime] at hpos
      exact observerCallback_isVisible_mono entries c (ih hpos)
    | load endTime =>
      simp only [step, Except.ok.injEq] at hstep
      subst hstep
      have hvis : c.isVisible = true := by
        cases hv : c.isVisible with
        | true => rfl
        | false => exact absurd (imgSrc_of_hidden c hv) hdel
      simpa [handleLoad] using hvis
    | click =>
      simp only [step, Except.ok.injEq] at hstep
      subst hstep
      exact ih hpos
    | teardown b =>
      obtain ⟨d, hd, hv, _, hl⟩ := teardown_ok c b
      simp only [step] at hstep
      rw [hd] at hstep
      cases hstep
      rw [hl] at hpos
      rw [hv]
      exact ih hpos

/-! ## Facts about binary64 rounding -/

theorem floor_le_roundHalfEven (q : ℚ) : ⌊q⌋ ≤ roundHalfEven q := by
  simp only [roundHalfEven]
  split_ifs <;> omega

theorem roundHalfEven_le_floor_add_one (q : ℚ) : roundHalfEven q ≤ ⌊q⌋ + 1 := by
  simp only [roundHalfEven]
  split_ifs <;> omega

theorem abs_roundHalfEven_sub_le (q : ℚ) : abs ((roundHalfEven q : ℚ) - q) ≤ 1 / 2 := by
  have h1 := Int.floor_le q
  have h2 := Int.lt_floor_add_one q
  simp only [roundHalfEven]
  rw [abs_le]
  split_ifs with ha hb hc <;> push_cast <;> constructor <;> linarith

theorem roundHalfEven_intCast (n : ℤ) : roundHalfEven (n : ℚ) = n := by
  simp [roundHalfEven]

theorem roundHalfEven_eq_of_lt (q : ℚ) (n : ℤ) (h1 : (n : ℚ) - 1 / 2 < q)
    (h2 : q < (n : ℚ) + 1 / 2) : roundHalfEven q = n := by
  have h := abs_roundHalfEven_sub_le q
  rw [abs_le] at h
  have ha : ((roundHalfEven q : ℤ) : ℚ) < (n : ℚ) + 1 := by linarith [h.2]
  have hb : (n : ℚ) - 1 < ((roundHalfEven q : ℤ) : ℚ) := by linarith [h.1]
  have ha' : roundHalfEven q < n + 1 := by exact_mod_cast ha
  have hb' : n - 1 < roundHalfEven q := by exact_mod_cast hb
  omega

theorem roundHalfEven_half_odd (f : ℤ) (h : f % 2 = 1) :
    roundHalfEven ((f : ℚ) + 1 / 2) = f + 1 := by
  have hfl : ⌊(f : ℚ) + 1 / 2⌋ = f := by
    rw [Int.floor_eq_iff]
    constructor <;> norm_num
  have hne : ¬ (f % 2 = 0) := by omega
  simp only [roundHalfEven, hfl]
  simp [hne]

theorem roundHalfEven_half_even (f : ℤ) (h : f % 2 = 0) :
    roundHalfEven ((f : ℚ) + 1 / 2) = f := by
  have hfl : ⌊(f : ℚ) + 1 / 2⌋ = f := by
    rw [Int.floor_eq_iff]
    constructor <;> norm_num
  simp only [roundHalfEven, hfl]
  simp [h]

theorem ulpExponent_ge (x : ℚ) : -1074 ≤ ulpExponent x := le_max_right _ _

theorem ulpExponent_eq (x : ℚ) (k : ℤ) (h1 : (2 : ℚ) ^ k ≤ |x|) (h2 : |x| < (2 : ℚ) ^ (k + 1))
    (hk : -1022 ≤ k) : ulpExponent x = k - 52 := by
  have hpos : 0 < |x| := lt_of_lt_of_le (by positivity) h1
  have hlog : Int.log 2 |x| = k := by
    apply le_antisymm
    · have := (Int.lt_zpow_iff_log_lt (b := 2) (by norm_num) hpos (x := k + 1)).mp
        (by exact_mod_cast h2)
      omega
    · exact (Int.zpow_le_iff_le_log (b := 2) (by norm_num) hpos).mp (by exact_mod_cast h1)
  unfold ulpExponent
  rw [hlog]
  exact max_eq_left (by omega)

theorem ulpExponent_neg (x : ℚ) : ulpExponent (-x) = ulpExponent x := by
  simp [ulpExponent]

theorem zpow_ulpExponent_le (x : ℚ) (hx : x ≠ 0) (hgrid : (2 : ℚ) ^ (-1074 : ℤ) ≤ |x|) :
    (2 : ℚ) ^ ulpExponent x ≤ |x| := by
  have hpos : 0 < |x| := abs_pos.mpr hx
  unfold ulpExponent
  rcases max_cases (Int.log 2 |x| - 52) (-1074) with ⟨h, _⟩ | ⟨h, _⟩
  · rw [h]
    have h1 : (2 : ℚ) ^ (Int.log 2 |x| - 52) ≤ (2 : ℚ) ^ Int.log 2 |x| :=
      zpow_le_zpow_right₀ (by norm_num) (by omega)
    have h2 := Int.zpow_log_le_self (b := 2) (by norm_num) hpos
    exact le_trans h1 (by exact_mod_cast h2)
  · rw [h]
    exact hgrid

theorem roundDouble_zero : roundDouble 0 = 0 := by simp [roundDouble]

theorem roundDouble_nonneg (x : ℚ) (h : 0 ≤ x) : 0 ≤ roundDouble x := by
  unfold roundDouble
  split_ifs with h0 hneg
  · exact le_refl 0
  · exact absurd hneg (not_lt.mpr h)
  · have hq : (0 : ℚ) ≤ |x| / 2 ^ ulpExponent x := by positivity
    have hf : (0 : ℤ) ≤ roundHalfEven (|x| / 2 ^ ulpExponent x) :=
      le_trans (Int.floor_nonneg.mpr hq) (floor_le_roundHalfEven _)
    have hf' : (0 : ℚ) ≤ (roundHalfEven (|x| / 2 ^ ulpExponent x) : ℚ) := by exact_mod_cast hf
    have h2 : (0 : ℚ) < 2 ^ ulpExponent x := by positivity
    positivity

theorem roundDouble_neg (x : ℚ) : roundDouble (-x) = -roundDouble x := by
  unfold roundDouble
  by_cases h0 : x = 0
  · simp [h0]
  · have h0' : -x ≠ 0 := neg_ne_zero.mpr h0
    rw [if_neg h0, if_neg h0', ulpExponent_neg, abs_neg]
    rcases lt_or_gt_of_ne h0 with hlt | hgt
    · have h1 : ¬ (-x < 0) := by linarith
      simp [hlt, h1]
    · have h1 : -x < 0 := by linarith
      have h2 : ¬ x < 0 := by linarith
      simp [h1, h2]

theorem roundDouble_pos (x : ℚ) (hx : 0 < x) (hgrid : (2 : ℚ) ^ (-1074 : ℤ) ≤ x) :
    0 < roundDouble x := by
  have habs : |x| = x := abs_of_pos hx
  have hle := zpow_ulpExponent_le x hx.ne' (by rw [habs]; exact hgrid)
  have h2 : (0 : ℚ) < 2 ^ ulpExponent x := by positivity
  have hq : (1 : ℚ) ≤ |x| / 2 ^ ulpExponent x := by
    rw [le_div_iff₀ h2]
    simpa using hle
  have hf : (1 : ℤ) ≤ roundHalfEven (|x| / 2 ^ ulpExponent x) :=
    le_trans (Int.le_floor.mpr (by exact_mod_cast hq)) (floor_le_roundHalfEven _)
  have hf' : (1 : ℚ) ≤ (roundHalfEven (|x| / 2 ^ ulpExponent x) : ℚ) := by exact_mod_cast hf
  unfold roundDouble
  rw [if_neg hx.ne', if_neg (not_lt.mpr hx.le)]
  have : (0 : ℚ) < (roundHalfEven (|x| / 2 ^ ulpExponent x) : ℚ) := by linarith
  positivity

theorem abs_roundDouble_sub_le (x : ℚ) :
    abs (roundDouble x - x) ≤ 2 ^ ulpExponent x / 2 := by
  have h2 : (0 : ℚ) < 2 ^ ulpExponent x := by positivity
  by_cases h0 : x = 0
  · subst h0
    rw [roundDouble_zero]
    simp
    positivity
  · have key : ∀ y : ℚ, 0 < y →
        abs (roundDouble y - y) ≤ 2 ^ ulpExponent y / 2 := by
      intro y hy
      have hy2 : (0 : ℚ) < 2 ^ ulpExponent y := by positivity
      have hr := abs_roundHalfEven_sub_le (|y| / 2 ^ ulpExponent y)
      unfold roundDouble
      rw [if_neg hy.ne', if_neg (not_lt.mpr hy.le), abs_of_pos hy] at *
      have heq : (1 : ℚ) * (roundHalfEven (y / 2 ^ ulpExponent y) : ℚ) * 2 ^ ulpExponent y - y =
          ((roundHalfEven (y / 2 ^ ulpExponent y) : ℚ) - y / 2 ^ ulpExponent y) *
            2 ^ ulpExponent y := by
        field_simp
      rw [heq, abs_mul, abs_of_pos hy2]
      calc abs ((roundHalfEven (y / 2 ^ ulpExponent y) : ℚ) - y / 2 ^ ulpExponent y) *
            2 ^ ulpExponent y ≤ 1 / 2 * 2 ^ ulpExponent y :=
            mul_le_mul_of_nonneg_right hr hy2.le
        _ = 2 ^ ulpExponent y / 2 := by ring
    rcases lt_or_gt_of_ne h0 with hlt | hgt
    · have := key (-x) (by linarith)
      rw [roundDouble_neg, ulpExponent_neg] at this
      have e : -roundDouble x - -x = -(roundDouble x - x) := by ring
      rw [e, abs_neg] at this
      exact this
    · exact key x hgt

theorem roundDouble_of_multiple (x : ℚ) (z j : ℤ) (hx : |x| = (z : ℚ) * 2 ^ j)
    (hj : ulpExponent x ≤ j) : roundDouble x = x := by
  by_cases h0 : x = 0
  · subst h0
    exact roundDouble_zero
  · have h2 : (2 : ℚ) ^ ulpExponent x ≠ 0 := by positivity
    obtain ⟨n, hn⟩ := Int.eq_ofNat_of_zero_le (sub_nonneg.mpr hj)
    have hquot : |x| / 2 ^ ulpExponent x = ((z * 2 ^ n : ℤ) : ℚ) := by
      rw [hx, div_eq_iff h2]
      push_cast
      have hj' : j = (n : ℤ) + ulpExponent x := by omega
      rw [hj', zpow_add₀ (by norm_num : (2 : ℚ) ≠ 0), zpow_natCast]
      ring
    have hback : ((z * 2 ^ n : ℤ) : ℚ) * 2 ^ ulpExponent x = |x| := by
      rw [← hquot]
      field_simp
    unfold roundDouble
    rw [if_neg h0, hquot, roundHalfEven_intCast, mul_assoc, hback]
    rcases lt_or_gt_of_ne h0 with hlt | hgt
    · rw [if_pos hlt, abs_of_neg hlt]
      ring
    · rw [if_neg (not_lt.mpr hgt.le), abs_of_pos hgt]
      ring

theorem roundDouble_natCast (n : ℕ) (h : n < 2 ^ 53) : roundDouble (n : ℚ) = n := by
  apply roundDouble_of_multiple (n : ℚ) (n : ℤ) 0
  · simp
  · unfold ulpExponent
    apply max_le _ (by norm_num)
    by_cases h0 : n = 0
    · subst h0
      simp [Int.log_zero_right]
    · have hpos : (0 : ℚ) < |(n : ℚ)| := by
        rw [abs_of_nonneg (by positivity)]
        exact_mod_cast Nat.pos_of_ne_zero h0
      have hlt : |(n : ℚ)| < ((2 : ℕ) : ℚ) ^ (53 : ℤ) := by
        rw [abs_of_nonneg (by positivity)]
        exact_mod_cast h
      have := (Int.lt_zpow_iff_log_lt (b := 2) (by norm_num) hpos (x := 53)).mp hlt
      omega

theorem exists_grid_of_fixed (x : ℚ) (h : roundDouble x = x) :
    ∃ z : ℤ, x = (z : ℚ) * 2 ^ (-1074 : ℤ) := by
  by_cases h0 : x = 0
  · exact ⟨0, by simp [h0]⟩
  · obtain ⟨n, hn⟩ := Int.eq_ofNat_of_zero_le (sub_nonneg.mpr (ulpExponent_ge x))
    have he : ulpExponent x = (n : ℤ) + (-1074) := by omega
    refine ⟨(if x < 0 then -1 else 1) * roundHalfEven (|x| / 2 ^ ulpExponent x) * 2 ^ n, ?_⟩
    have hx := h
    unfold roundDouble at hx
    rw [if_neg h0] at hx
    conv_lhs => rw [← hx]
    rw [he, zpow_add₀ (by norm_num : (2 : ℚ) ≠ 0), zpow_natCast]
    push_cast
    split_ifs <;> ring

theorem jsSub_pos (x y : ℚ) (hx : roundDouble x = x) (hy : roundDouble y = y) (h : y < x) :
    0 < jsSub x y := by
  obtain ⟨zx, hzx⟩ := exists_grid_of_fixed x hx
  obtain ⟨zy, hzy⟩ := exists_grid_of_fixed y hy
  have hpos : 0 < x - y := sub_pos.mpr h
  have h2 : (0 : ℚ) < 2 ^ (-1074 : ℤ) := by positivity
  have hd : x - y = ((zx - zy : ℤ) : ℚ) * 2 ^ (-1074 : ℤ) := by
    rw [hzx, hzy]
    push_cast
    ring
  have hz : (1 : ℤ) ≤ zx - zy := by
    by_contra hcon
    have hle : ((zx - zy : ℤ) : ℚ) ≤ 0 := by exact_mod_cast (by omega : zx - zy ≤ 0)
    have : x - y ≤ 0 := by
      rw [hd]
      exact mul_nonpos_of_nonpos_of_nonneg hle h2.le
    linarith
  have hgrid : (2 : ℚ) ^ (-1074 : ℤ) ≤ x - y := by
    rw [hd]
    have : (1 : ℚ) ≤ ((zx - zy : ℤ) : ℚ) := by exact_mod_cast hz
    calc (2 : ℚ) ^ (-1074 : ℤ) = 1 * 2 ^ (-1074 : ℤ) := by ring
      _ ≤ ((zx - zy : ℤ) : ℚ) * 2 ^ (-1074 : ℤ) := mul_le_mul_of_nonneg_right this h2.le
  exact roundDouble_pos (x - y) hpos hgrid

theorem jsSub_self (x : ℚ) : jsSub x x = 0 := by
  simp [jsSub, roundDouble_zero]

theorem jsSub_nonneg (x y : ℚ) (h : y ≤ x) : 0 ≤ jsSub x y :=
  roundDouble_nonneg _ (sub_nonneg.mpr h)

theorem roundDouble_eq_of_tie_odd (x : ℚ) (k f : ℤ) (hx : 0 < x) (h1 : (2 : ℚ) ^ k ≤ x)
    (h2 : x < (2 : ℚ) ^ (k + 1)) (hk : -1022 ≤ k)
    (hq : x / 2 ^ (k - 52) = (f : ℚ) + 1 / 2) (hf : f % 2 = 1) :
    roundDouble x = ((f + 1 : ℤ) : ℚ) * 2 ^ (k - 52) := by
  have habs : |x| = x := abs_of_pos hx
  have he : ulpExponent x = k - 52 := ulpExponent_eq x k (by rw [habs]; exact h1)
    (by rw [habs]; exact h2) hk
  unfold roundDouble
  rw [if_neg hx.ne', if_neg (not_lt.mpr hx.le), he, habs, hq, roundHalfEven_half_odd f hf]
  ring

theorem jsSub_add_one_self (x : ℚ) : jsSub (x + 1) x = 1 := by
  have h : x + 1 - x = ((1 : ℕ) : ℚ) := by
    push_cast
    ring
  rw [jsSub, h, roundDouble_natCast 1 (by norm_num)]
  norm_num

theorem jsSub_natCast (a b : ℕ) (hba : b ≤ a) (ha : a < 2 ^ 53) :
    jsSub (a : ℚ) (b : ℚ) = ((a - b : ℕ) : ℚ) := by
  have h : (a : ℚ) - (b : ℚ) = ((a - b : ℕ) : ℚ) := by
    rw [Nat.cast_sub hba]
  rw [jsSub, h, roundDouble_natCast (a - b) (by omega)]

theorem jsSub_natCast_neg (a b : ℕ) (hab : a ≤ b) (hb : b < 2 ^ 53) :
    jsSub (a : ℚ) (b : ℚ) = -((b - a : ℕ) : ℚ) := by
  have h : (a : ℚ) - (b : ℚ) = -((b - a : ℕ) : ℚ) := by
    rw [Nat.cast_sub hab]
    ring
  rw [jsSub, h, roundDouble_neg, roundDouble_natCast (b - a) (by omega)]

theorem isDouble_iff (x : ℚ) :
    isDouble x = true ↔ roundDouble x = x ∧ abs x < 2 ^ 1024 := by
  simp [isDouble]

theorem isDouble_sampleStart : isDouble sampleStart = true := by
  have hpos : (0 : ℚ) < sampleStart := by norm_num [sampleStart]
  have habs : |sampleStart| = sampleStart := abs_of_pos hpos
  rw [isDouble_iff, habs]
  refine ⟨?_, ?_⟩
  · apply roundDouble_of_multiple sampleStart 879653282685911 (-43)
    · rw [habs]
      norm_num [sampleStart]
    · rw [ulpExponent_eq sampleStart 6 (by rw [habs]; norm_num [sampleStart])
        (by rw [habs]; norm_num [sampleStart]) (by norm_num)]
      norm_num
  · norm_num [sampleStart]

theorem isDouble_sampleEnd : isDouble sampleEnd = true := by
  have hpos : (0 : ℚ) < sampleEnd := by norm_num [sampleEnd]
  have habs : |sampleEnd| = sampleEnd := abs_of_pos hpos
  rw [isDouble_iff, habs]
  refine ⟨?_, ?_⟩
  · apply roundDouble_of_multiple sampleEnd 4943448258946007 (-42)
    · rw [habs]
      norm_num [sampleEnd]
    · rw [ulpExponent_eq sampleEnd 10 (by rw [habs]; norm_num [sampleEnd])
        (by rw [habs]; norm_num [sampleEnd]) (by norm_num)]
      norm_num
  · norm_num [sampleEnd]

theorem jsSub_sample : jsSub sampleEnd sampleStart = 1125905404400763 / 1099511627776 := by
  have hd : sampleEnd - sampleStart = 9007243235206103 / 8796093022208 := by
    norm_num [sampleEnd, sampleStart]
  rw [jsSub, hd, roundDouble_eq_of_tie_odd _ 10 4503621617603051 (by norm_num) (by norm_num)
    (by norm_num) (by norm_num) (by norm_num) (by decide)]
  norm_num

/-! ## Facts about number formatting -/

theorem nearestHundredths_cast (x : ℚ) :
    ((nearestHundredths x : ℕ) : ℚ) = ((⌊|x| * 100 + 1 / 2⌋ : ℤ) : ℚ) := by
  have hq : (0 : ℚ) ≤ |x| * 100 + 1 / 2 := by positivity
  have hf : (0 : ℤ) ≤ ⌊|x| * 100 + 1 / 2⌋ := Int.floor_nonneg.mpr hq
  have hnat : ((nearestHundredths x : ℕ) : ℤ) = ⌊|x| * 100 + 1 / 2⌋ := by
    unfold nearestHundredths
    exact Int.toNat_of_nonneg hf
  exact_mod_cast congrArg (fun z : ℤ => (z : ℚ)) hnat

theorem nearestHundredths_close (x : ℚ) :
    abs (((nearestHundredths x : ℕ) : ℚ) / 100 - abs x) ≤ 1 / 200 := by
  rw [nearestHundredths_cast]
  have h1 := Int.floor_le (|x| * 100 + 1 / 2)
  have h2 := Int.lt_floor_add_one (|x| * 100 + 1 / 2)
  rw [abs_le]
  constructor <;> linarith

theorem toFixed2_of_small (numberToString : ℚ → String) (x : ℚ) (h0 : 0 ≤ x)
    (h : x < 10 ^ 21) :
    toFixed2 numberToString x = fixed2 false (nearestHundredths x) := by
  have habs : |x| = x := abs_of_nonneg h0
  have hlt : ¬ (10 : ℚ) ^ 21 ≤ |x| := by rw [habs]; exact not_le.mpr h
  have hneg : ¬ x < 0 := not_lt.mpr h0
  simp [toFixed2, hlt, hneg]

theorem toFixed2_of_large (numberToString : ℚ → String) (x : ℚ) (h : (10 : ℚ) ^ 21 ≤ x) :
    toFixed2 numberToString x = numberToString x := by
  have h0 : (0 : ℚ) ≤ x := le_trans (by positivity) h
  have habs : |x| = x := abs_of_nonneg h0
  have hneg : ¬ x < 0 := not_lt.mpr h0
  simp [toFixed2, habs, h, hneg]

theorem nearestHundredths_eq (x : ℚ) (n : ℕ) (h1 : (n : ℚ) ≤ abs x * 100 + 1 / 2)
    (h2 : abs x * 100 + 1 / 2 < (n : ℚ) + 1) : nearestHundredths x = n := by
  have hfloor : ⌊abs x * 100 + 1 / 2⌋ = (n : ℤ) := by
    rw [Int.floor_eq_iff]
    exact ⟨by exact_mod_cast h1, by exact_mod_cast h2⟩
  have hcast := nearestHundredths_cast x
  rw [hfloor] at hcast
  exact_mod_cast hcast

theorem toFixed2_of_small_neg (numberToString : ℚ → String) (x : ℚ) (h0 : x < 0)
    (h : -x < 10 ^ 21) :
    toFixed2 numberToString x = fixed2 true (nearestHundredths x) := by
  have habs : |x| = -x := abs_of_neg h0
  have hlt : ¬ (10 : ℚ) ^ 21 ≤ |x| := by rw [habs]; exact not_le.mpr h
  simp [toFixed2, hlt, h0]

/-! ## Facts about `App` -/

theorem lazyImageElement_of_record (image : JsVal) (now : ℚ) (h : isImageRecord image = true) :
    lazyImageElement image now = .ok (elementOfRecord image now) := by
  cases image with
  | obj fields =>
    simp only [isImageRecord] at h
    cases hu : fields.lookup "urls" with
    | none => rw [hu] at h; cases h
    | some urls =>
      rw [hu] at h
      cases urls with
      | obj ufields =>
        simp only [Bool.and_eq_true, Option.isSome_iff_exists] at h
        obtain ⟨⟨⟨⟨id, hid⟩, ⟨alt, halt⟩⟩, ⟨thumb, hthumb⟩⟩, ⟨full, hfull⟩⟩ := h
        simp [lazyImageElement, elementOfRecord, getProp, fieldOf, hu, hid, halt, hthumb, hfull]
      | _ => cases h
  | _ => cases h

theorem mapImages_spec (clock : Nat → ℚ) (recs : List JsVal) (i : Nat)
    (h : ∀ r ∈ recs, isImageRecord r = true) :
    ∃ els, mapImages clock i recs = .ok els ∧ els.length = recs.length ∧
      ∀ (j : Nat) (r : JsVal) (el : CellElement), recs[j]? = some r → els[j]? = some el →
        lazyImageElement r (clock (i + j)) = .ok el := by
  induction recs generalizing i with
  | nil => exact ⟨[], rfl, rfl, by simp⟩
  | cons r recs ih =>
    obtain ⟨els, hels, hlen, hall⟩ := ih (i + 1) (fun x hx => h x (List.mem_cons_of_mem r hx))
    have hr := lazyImageElement_of_record r (clock i) (h r (List.mem_cons_self r recs))
    refine ⟨elementOfRecord r (clock i) :: els, ?_, by simp [hlen], ?_⟩
    · rw [mapImages, hr]
      simp only
      rw [hels]
    · intro j x el hx hel
      cases j with
      | zero =>
        simp only [List.getElem?_cons_zero, Option.some.injEq] at hx hel
        subst hx hel
        exact hr
      | succ j =>
        simp only [List.getElem?_cons_succ] at hx hel
        have := hall j x el hx hel
        have hij : i + 1 + j = i + (j + 1) := by omega
        rw [hij] at this
        exact this

theorem applyUpdates_startTime (image : JsVal) (h : isImageRecord image = true)
    (us : List Update) (c : Cell) :
    ∃ c', applyUpdates image c us = .ok c' ∧
      c'.props.startTime = lastRenderTime c.props.startTime us := by
  induction us generalizing c with
  | nil => exact ⟨c, rfl, rfl⟩
  | cons u us ih =>
    cases u with
    | event ev =>
      obtain ⟨d, hd⟩ := step_ok c ev
      obtain ⟨c', hc', hst⟩ := ih d
      refine ⟨c', ?_, ?_⟩
      · rw [applyUpdates, applyUpdate, hd]
        exact hc'
      · rw [hst, step_props c d ev hd]
        rfl
    | appRender now =>
      have hel := lazyImageElement_of_record image now h
      obtain ⟨c', hc', hst⟩ := ih (rerender c (elementOfRecord image now).props)
      refine ⟨c', ?_, ?_⟩
      · rw [applyUpdates, applyUpdate, hel]
        exact hc'
      · rw [hst]
        rfl

theorem lastRenderTime_of_no_render (t0 : ℚ) (us : List Update)
    (h : ∀ u ∈ us, u.isAppRender = false) : lastRenderTime t0 us = t0 := by
  induction us with
  | nil => rfl
  | cons u us ih =>
    cases u with
    | event ev =>
      rw [lastRenderTime]
      exact ih (fun x hx => h x (List.mem_cons_of_mem _ hx))
    | appRender now =>
      have := h (.appRender now) (List.mem_cons_self _ _)
      simp [Update.isAppRender] at this

theorem renderCells_throws_on_null_record (clock : Nat → ℚ) :
    renderCells (.arr [.null]) clock =
      .error "TypeError: cannot read properties of null" := rfl

theorem sampleVisibleCell_reached :
    ∃ c0, mount sampleProps 0 = .ok c0 ∧
      step c0 (.intersection [⟨true, 0⟩]) = .ok sampleVisibleCell :=
  ⟨_, mount_ok _ _, rfl⟩

/-! ## The claims -/

/-- C3: one invocation of the observer callback.  If some entry is intersecting,
the cell is visible afterwards and the target of every intersecting entry is no
longer observed; if no entry is intersecting, `isVisible` and the observed set
are unchanged. -/
theorem observerCallback_spec (c : Cell) (entries : List Entry) :
    ((∃ e ∈ entries, e.isIntersecting = true) →
      (observerCallback c entries).isVisible = true ∧
        ∀ e ∈ entries, e.isIntersecting = true →
          e.target ∉ (observerCallback c entries).observed) ∧
    ((∀ e ∈ entries, e.isIntersecting = false) →
      (observerCallback c entries).isVisible = c.isVisible ∧
        (observerCallback c entries).observed = c.observed) := by
  constructor
  · rintro ⟨e, he, hi⟩
    exact ⟨(observerCallback_of_some_intersecting entries c e he hi).1,
      fun x hx hxi => (observerCallback_of_some_intersecting entries c x hx hxi).2⟩
  · intro h
    rw [observerCallback_of_none_intersecting entries c h]
    exact ⟨rfl, rfl⟩

/-- C2: `isVisible` is monotonic.  A mounted cell starts with `isVisible` false;
every finite sequence of events runs to completion; in the resulting sequence of
states a state with `isVisible` true is only followed by such states, and the
flag changes value at most once. -/
theorem isVisible_monotonic (p : Props) (img : Elem) (evs : List Event) :
    ∃ c0 tr, mount p img = .ok c0 ∧ c0.isVisible = false ∧
      runTrace c0 evs = .ok tr ∧ tr.length = evs.length + 1 ∧ tr.head? = some c0 ∧
      tr.Pairwise (fun a b => a.isVisible = true → b.isVisible = true) ∧
      changes (tr.map (fun x => x.isVisible)) ≤ 1 := by
  obtain ⟨tr, h1, h2, h3⟩ := runTrace_total { firstRender p img with observed := [img] } evs
  exact ⟨_, tr, mount_ok p img, rfl, h1, h2, h3, runTrace_pairwise evs _ tr h1,
    runTrace_changes evs _ tr h1⟩

/-- C1: the rendered `src` of every cell of a gallery whose preview URIs are
non-empty strings.  The gallery mounts; initially every cell is hidden and its
`src` is the empty string; in every reachable state the `src` of cell `i` is the
empty string while `isVisible` is false and is the preview URI of element `i`
(its `src` prop) once it is true; and an observer callback with an intersecting
entry delivered to cell `k` of the initial gallery gives cell `k` its preview
URI and leaves the `src` of every other cell empty. -/
theorem gallery_src_invariant (els : List CellElement)
    (hsrc : ∀ el ∈ els, ∃ s, el.props.src = .str s ∧ s ≠ "") :
    ∃ g0, mountAll 0 els = .ok g0 ∧ g0.length = els.length ∧
      (∀ c ∈ g0, c.isVisible = false ∧ imgSrc c = .str "") ∧
      (∀ g, GalleryReachable g0 g → g.length = els.length ∧
        ∀ (i : Nat) (c : Cell) (el : CellElement), g[i]? = some c → els[i]? = some el →
          (c.isVisible = false → imgSrc c = .str "") ∧
          (c.isVisible = true → imgSrc c = el.props.src ∧ imgSrc c ≠ .str "")) ∧
      (∀ (k : Nat) (entries : List Entry), k < els.length →
        (∃ e ∈ entries, e.isIntersecting = true) →
        ∃ g, galleryStep g0 k (.intersection entries) = .ok g ∧ g.length = els.length ∧
          ∀ (i : Nat) (c : Cell) (el : CellElement), g[i]? = some c → els[i]? = some el →
            (i = k → imgSrc c = el.props.src ∧ imgSrc c ≠ .str "") ∧
            (i ≠ k → imgSrc c = .str "")) := by
  obtain ⟨g0, hg0, hlen, hall⟩ := mountAll_spec els 0
  have hne : ∀ (i : Nat) (el : CellElement), els[i]? = some el → el.props.src ≠ .str "" := by
    intro i el hel
    obtain ⟨s, hs, hs'⟩ := hsrc el (List.getElem?_mem hel)
    rw [hs]
    intro hcon
    cases hcon
    exact hs' rfl
  have hinit : ∀ (j : Nat) (c : Cell), g0[j]? = some c →
      ∃ el, els[j]? = some el ∧ c.isVisible = false ∧ c.props = el.props := by
    intro j c hc
    have hj : j < els.length := by
      rw [← hlen]
      exact (List.getElem?_eq_some_iff.mp hc).1
    refine ⟨els[j], List.getElem?_eq_getElem hj, ?_⟩
    have := hall j c els[j] hc (List.getElem?_eq_getElem hj)
    rw [this]
    exact ⟨rfl, rfl⟩
  refine ⟨g0, hg0, hlen, ?_, ?_, ?_⟩
  · intro c hc
    obtain ⟨j, hj⟩ := List.getElem?_of_mem hc
    obtain ⟨_, _, hv, _⟩ := hinit j c hj
    exact ⟨hv, imgSrc_of_hidden c hv⟩
  · intro g hg
    obtain ⟨hl, hp⟩ := galleryReachable_props g0 g hg
    refine ⟨hl.trans hlen, ?_⟩
    intro i c el hc hel
    refine ⟨imgSrc_of_hidden c, fun hv => ?_⟩
    obtain ⟨c0, hc0, hpc⟩ := hp i c hc
    obtain ⟨el', hel', _, hp0⟩ := hinit i c0 hc0
    rw [hel] at hel'
    cases hel'
    have hsrcEq : imgSrc c = el.props.src := by
      rw [imgSrc_of_visible c hv, hpc, hp0]
    exact ⟨hsrcEq, by rw [hsrcEq]; exact hne i el hel⟩
  · intro k entries hk _hex
    have hk0 : k < g0.length := by rw [hlen]; exact hk
    have hgk : g0[k]? = some g0[k] := List.getElem?_eq_getElem hk0
    have hstep : galleryStep g0 k (.intersection entries) =
        .ok (g0.set k (observerCallback g0[k] entries)) := by
      simp [galleryStep, hgk, step]
    refine ⟨_, hstep, by simp [hlen], ?_⟩
    intro i c el hc hel
    obtain ⟨_, hspec⟩ := galleryStep_spec _ _ k _ hstep
    obtain ⟨c0, hc0, hpc, hother, hself⟩ := hspec i c hc
    obtain ⟨el', hel', hv0, hp0⟩ := hinit i c0 hc0
    rw [hel] at hel'
    cases hel'
    constructor
    · intro hik
      have hs := hself hik
      simp only [step, Except.ok.injEq] at hs
      obtain ⟨e, he, hi⟩ := _hex
      have hv : c.isVisible = true := by
        rw [← hs]
        exact (observerCallback_of_some_intersecting entries c0 e he hi).1
      have hsrcEq : imgSrc c = el.props.src := by
        rw [imgSrc_of_visible c hv, hpc, hp0]
      exact ⟨hsrcEq, by rw [hsrcEq]; exact hne i el hel⟩
    · intro hik
      rw [hother hik]
      exact imgSrc_of_hidden c0 hv0

/-- C9: in the step relation of one cell in which a load completion is delivered
only while the rendered `src` is not the empty string, no reachable state has a
set load duration (`loadTime > 0`) while `isVisible` is false; not visible and
not loaded, and visible and not loaded, are reachable, and visible and loaded is
reachable for a cell whose preview URI is not the empty string. -/
theorem loaded_implies_visible (p : Props) (img : Elem) :
    ∃ c0, mount p img = .ok c0 ∧
      (∀ c, Reachable c0 c → ¬ (0 < c.loadTime ∧ c.isVisible = false)) ∧
      (∃ c, Reachable c0 c ∧ c.isVisible = false ∧ ¬ 0 < c.loadTime) ∧
      (∃ c, Reachable c0 c ∧ c.isVisible = true ∧ ¬ 0 < c.loadTime) ∧
      (p.src ≠ .str "" → ∃ c, Reachable c0 c ∧ c.isVisible = true ∧ 0 < c.loadTime) := by
  refine ⟨_, mount_ok p img, ?_, ?_, ?_, ?_⟩
  · rintro c hc ⟨hpos, hv⟩
    have := reachable_loaded_visible _ c rfl hc hpos
    rw [hv] at this
    cases this
  · exact ⟨_, Reachable.init, rfl, by simp [firstRender]⟩
  · refine ⟨observerCallback { firstRender p img with observed := [img] } [⟨true, img⟩], ?_, ?_, ?_⟩
    · exact Reachable.next (.intersection [⟨true, img⟩]) Reachable.init trivial rfl
    · simp [observerCallback, onEntry, unobserve]
    · simp [observerCallback, onEntry, unobserve, firstRender]
  · intro hne
    refine ⟨handleLoad (observerCallback { firstRender p img with observed := [img] }
      [⟨true, img⟩]) (p.startTime + 1), ?_, ?_, ?_⟩
    · refine Reachable.next (.load (p.startTime + 1))
        (Reachable.next (.intersection [⟨true, img⟩]) Reachable.init trivial rfl) ?_ rfl
      simpa [Deliverable, imgSrc, observerCallback, onEntry, unobserve, firstRender] using hne
    · simp [handleLoad, observerCallback, onEntry, unobserve]
    · simp [handleLoad, observerCallback, onEntry, unobserve, firstRender, jsSub_add_one_self]

/-- C5 (as stated) fails when the load completes at the baseline instant: the
cell of the sample record mounts, intersects, and its image completes at
`endTime = startTime = 10`; the stored duration is 0 and the overlay renders
nothing instead of a text with two decimal digits. -/
theorem overlay_empty_on_zero_duration :
    ∃ c0 c1 c2, mount sampleProps 0 = .ok c0 ∧
      step c0 (.intersection [⟨true, 0⟩]) = .ok c1 ∧ imgSrc c1 = sampleProps.src ∧
      sampleProps.startTime = 10 ∧ step c1 (.load 10) = .ok c2 ∧ c2.loadTime = 0 ∧
      ∀ numberToString : ℚ → String, overlay numberToString c2 = none := by
  refine ⟨_, _, _, mount_ok _ _, rfl, rfl, rfl, rfl, ?_, ?_⟩
  · simp [handleLoad, observerCallback, onEntry, unobserve, sampleProps, firstRender,
      jsSub_self]
  · intro f
    simp [overlay, handleLoad, observerCallback, onEntry, unobserve, sampleProps, firstRender,
      jsSub_self]

/-- C5 (as amended): for timestamps (non-negative doubles) with
`endTime >= startTime`, `handleLoad` stores the double `endTime - startTime`: the
double nearest to the exact difference, not rounded further, and non-negative;
the difference is no larger than the double `endTime`, so the subtraction does
not overflow.  When `endTime` equals `startTime` the stored
value is 0 and the overlay renders nothing.  When `endTime` is later the stored
value is positive, and when it is below `10^21` the overlay is the text
`Load Time: X.XX ms` with exactly two fraction digits, for the hundredths `n`
nearest to the stored value. -/
theorem handleLoad_overlay (numberToString : ℚ → String) (c : Cell) (endTime : ℚ)
    (hs : isDouble c.props.startTime = true) (he : isDouble endTime = true)
    (h0 : 0 ≤ c.props.startTime) (h : c.props.startTime ≤ endTime) :
    (handleLoad c endTime).loadTime = jsSub endTime c.props.startTime ∧
    abs (endTime - c.props.startTime) ≤ abs endTime ∧
    abs ((handleLoad c endTime).loadTime - (endTime - c.props.startTime)) ≤
      2 ^ ulpExponent (endTime - c.props.startTime) / 2 ∧
    0 ≤ (handleLoad c endTime).loadTime ∧
    (endTime = c.props.startTime →
      (handleLoad c endTime).loadTime = 0 ∧
        overlay numberToString (handleLoad c endTime) = none) ∧
    (c.props.startTime < endTime →
      0 < (handleLoad c endTime).loadTime ∧
      ((handleLoad c endTime).loadTime < 10 ^ 21 →
        ∃ n : Nat, n = nearestHundredths (handleLoad c endTime).loadTime ∧
          abs ((n : ℚ) / 100 - (handleLoad c endTime).loadTime) ≤ 1 / 200 ∧
          n / 10 % 10 < 10 ∧ n % 10 < 10 ∧
          overlay numberToString (handleLoad c endTime) =
            some ("Load Time: " ++
              (toString (n / 100) ++ "." ++ toString (n / 10 % 10) ++ toString (n % 10)) ++
              " ms"))) := by
  obtain ⟨hsfix, _⟩ := (isDouble_iff _).mp hs
  obtain ⟨hefix, _⟩ := (isDouble_iff _).mp he
  have hload : (handleLoad c endTime).loadTime = jsSub endTime c.props.startTime := rfl
  have hnonneg : 0 ≤ jsSub endTime c.props.startTime := jsSub_nonneg _ _ h
  refine ⟨hload, ?_, ?_, ?_, ?_, ?_⟩
  · have hd0 : 0 ≤ endTime - c.props.startTime := sub_nonneg.mpr h
    have hdle : endTime - c.props.startTime ≤ endTime := by linarith
    rw [abs_of_nonneg hd0, abs_of_nonneg (le_trans h0 h)]
    exact hdle
  · rw [hload]
    exact abs_roundDouble_sub_le _
  · rw [hload]
    exact hnonneg
  · intro heq
    have hzero : jsSub endTime c.props.startTime = 0 := by
      rw [heq]
      exact jsSub_self _
    refine ⟨by rw [hload, hzero], ?_⟩
    simp [overlay, hload, hzero]
  · intro hlt
    have hpos : 0 < jsSub endTime c.props.startTime := jsSub_pos _ _ hefix hsfix hlt
    refine ⟨by rw [hload]; exact hpos, ?_⟩
    rw [hload]
    intro hsmall
    refine ⟨_, rfl, ?_, Nat.mod_lt _ (by decide), Nat.mod_lt _ (by decide), ?_⟩
    · have hclose := nearestHundredths_close (jsSub endTime c.props.startTime)
      rwa [abs_of_nonneg hpos.le] at hclose
    · have hfix := toFixed2_of_small numberToString _ hpos.le hsmall
      simp only [overlay, hload, gt_iff_lt, hpos, if_true, hfix, fixed2]
      simp

/-- C6 (as stated) fails after a re-render of `App`: the cell of the sample
record is created by a render that reads the clock at 10, `App` renders again at
50, and the image completes at 60; `handleLoad` stores 10, the time since the
re-render, not the 50 elapsed since the cell was created. -/
theorem baseline_replaced_by_rerender :
    ∃ c0 c, instantiate sampleRecord 10 0 = .ok c0 ∧ c0.props.startTime = 10 ∧
      applyUpdates sampleRecord c0 [.appRender 50] = .ok c ∧
      (handleLoad c 60).loadTime = 10 ∧ (handleLoad c 60).loadTime ≠ 60 - 10 := by
  have hsub : jsSub 60 50 = 10 := by
    have := jsSub_natCast 60 50 (by norm_num) (by norm_num)
    norm_num at this
    exact this
  refine ⟨_, _, rfl, rfl, rfl, ?_, ?_⟩ <;>
    norm_num [handleLoad, rerender, elementOfRecord, hsub]

/-- C6 (as amended): for every image record and every sequence of host events
and renders of `App` during which its cell stays mounted, the `startTime` that
`handleLoad` subtracts is the clock reading of the latest render of `App`; it is
the reading of the render that created the cell when `App` has not rendered
again since. -/
theorem baseline_is_last_render (image : JsVal) (t0 endTime : ℚ) (img : Elem)
    (us : List Update) (himg : isImageRecord image = true) :
    ∃ c0 c, instantiate image t0 img = .ok c0 ∧ c0.props.startTime = t0 ∧
      applyUpdates image c0 us = .ok c ∧
      c.props.startTime = lastRenderTime t0 us ∧
      (handleLoad c endTime).loadTime = jsSub endTime (lastRenderTime t0 us) ∧
      ((∀ u ∈ us, u.isAppRender = false) →
        c.props.startTime = t0 ∧ (handleLoad c endTime).loadTime = jsSub endTime t0) := by
  have hel := lazyImageElement_of_record image t0 himg
  have hinst : instantiate image t0 img =
      .ok { firstRender (elementOfRecord image t0).props img with observed := [img] } := by
    rw [instantiate, hel]
    exact mount_ok _ _
  obtain ⟨c, hc, hst⟩ := applyUpdates_startTime image himg us
    { firstRender (elementOfRecord image t0).props img with observed := [img] }
  have hst' : c.props.startTime = lastRenderTime t0 us := hst
  refine ⟨_, c, hinst, rfl, hc, hst', ?_, ?_⟩
  · simp [handleLoad, hst']
  · intro hno
    have hlast := lastRenderTime_of_no_render t0 us hno
    exact ⟨by rw [hst', hlast], by simp [handleLoad, hst', hlast]⟩

/-- C7: a successful response that is an array of `N` image records.
`fetchImages` stores the array and logs nothing; `App` then renders exactly `N`
`LazyImage` elements, in the order of the response, the `i`-th keyed by the `id`
of the `i`-th record and given its `urls.thumb` as `src`, its `urls.full` as
`fullSrc` and its `alt_description` as `alt`; and the `N` cells mount. -/
theorem fetched_records_render (st : AppState) (recs : List JsVal) (clock : Nat → ℚ)
    (hrec : ∀ r ∈ recs, isImageRecord r = true) :
    ∃ st' els g, fetchImages st (.parsed (.arr recs)) = .ok st' ∧
      st'.images = .arr recs ∧ st'.consoleErrors = st.consoleErrors ∧
      renderCells st'.images clock = .ok els ∧ els.length = recs.length ∧
      mountAll 0 els = .ok g ∧ g.length = recs.length ∧
      ∀ (i : Nat) (r : JsVal) (el : CellElement), recs[i]? = some r → els[i]? = some el →
        el.key = fieldOf r "id" ∧
        el.props.src = fieldOf (fieldOf r "urls") "thumb" ∧
        el.props.fullSrc = fieldOf (fieldOf r "urls") "full" ∧
        el.props.alt = fieldOf r "alt_description" := by
  obtain ⟨els, hels, hlen, hall⟩ := mapImages_spec clock recs 0 hrec
  obtain ⟨g, hg, hglen, _⟩ := mountAll_spec els 0
  refine ⟨{ st with images := .arr recs }, els, g, rfl, rfl, rfl, hels, hlen, hg,
    hglen.trans hlen, ?_⟩
  intro i r el hr hel
  have h1 := hall i r el hr hel
  rw [lazyImageElement_of_record r _ (hrec r (List.getElem?_mem hr))] at h1
  simp only [Except.ok.injEq] at h1
  subst h1
  exact ⟨rfl, rfl, rfl, rfl⟩

/-- C8 (as stated) fails for a malformed response: the body the photo API sends
with an error status parses, and is not an array; `fetchImages` stores it as
the images state and logs nothing. -/
theorem malformed_body_not_logged :
    ∃ st', fetchImages initialApp (.parsed sampleErrorBody) = .ok st' ∧
      isArray sampleErrorBody = false ∧ st'.images = sampleErrorBody ∧
      st'.images ≠ .arr [] ∧ st'.consoleErrors = [] := by
  refine ⟨_, rfl, rfl, rfl, ?_, rfl⟩
  intro h
  cases h

/-- C8 (as amended): when `fetch` rejects or `response.json()` rejects,
`fetchImages` throws nothing, the images state stays the empty list, `App`
renders no cell and exactly one failure is logged.  When the body parses to
a value that is not an array, `fetchImages` throws nothing and logs nothing, the
images state becomes that value, and `App` renders no cell. -/
theorem fetch_failure_contained (st : AppState) (o : FetchOutcome) (clock : Nat → ℚ)
    (hempty : st.images = .arr []) :
    (∀ error, o = .fetchRejects error ∨ o = .jsonRejects error →
      ∃ st', fetchImages st o = .ok st' ∧ st'.images = .arr [] ∧
        st'.consoleErrors = st.consoleErrors ++ [error] ∧
        renderCells st'.images clock = .ok []) ∧
    (∀ data, o = .parsed data → isArray data = false →
      ∃ st', fetchImages st o = .ok st' ∧ st'.images = data ∧
        st'.consoleErrors = st.consoleErrors ∧
        renderCells st'.images clock = .ok []) := by
  constructor
  · rintro error (rfl | rfl)
    · exact ⟨_, rfl, hempty, rfl, by simp [hempty, renderCells, mapImages]⟩
    · exact ⟨_, rfl, hempty, rfl, by simp [hempty, renderCells, mapImages]⟩
  · rintro data rfl hdata
    refine ⟨_, rfl, rfl, rfl, ?_⟩
    cases data <;> first | rfl | cases hdata

/-- C4: the cleanup misses the release when the ref is cleared before it runs.
The cell of the sample record is mounted and unmounted before any intersecting
entry; the cleanup reads `imageRef.current` as it runs, finds it null and skips
the call, so `unobserve` is called zero times and the `img` is still in the
observed set, where the claim has exactly one call and the `img` unobserved. -/
theorem cleanup_skipped_when_ref_cleared :
    ∃ c0 cEnd, mount sampleProps 0 = .ok c0 ∧ step c0 (.teardown true) = .ok cEnd ∧
      cEnd.unobserveCalls.count 0 = 0 ∧ 0 ∈ cEnd.observed := by
  refine ⟨_, _, mount_ok _ _, rfl, ?_, ?_⟩ <;> simp [firstRender]

/-- C10: the page load time at the sample snapshot.  Navigation started 1500 ms
before the snapshot, so the elapsed duration is 1500 ms; `trackPageLoadTime`
subtracts the epoch-based `navigationStart` from the origin-based
`performance.now()` and stores -1699999998500, which the panel shows as
`-1699999998500.00`. -/
theorem pageLoadTime_mixes_time_bases :
    sampleSnapshot.navigationStart ≤ snapshotInstant sampleSnapshot ∧
    elapsedSinceNavigationStart sampleSnapshot = 1500 ∧
    (trackPageLoadTime initialApp sampleSnapshot).pageLoadTime = -1699999998500 ∧
    (trackPageLoadTime initialApp sampleSnapshot).pageLoadTime < 0 ∧
    ∀ numberToString : ℚ → String,
      pageLoadLine numberToString (trackPageLoadTime initialApp sampleSnapshot).pageLoadTime =
        "Время загрузки страницы: -1699999998500.00 ms" := by
  have hval : (trackPageLoadTime initialApp sampleSnapshot).pageLoadTime = -1699999998500 := by
    have hsub := jsSub_natCast_neg 1500 1700000000000 (by norm_num) (by norm_num)
    norm_num at hsub
    simp only [trackPageLoadTime, sampleSnapshot]
    exact hsub
  refine ⟨?_, ?_, hval, ?_, ?_⟩
  · norm_num [snapshotInstant, sampleSnapshot]
  · norm_num [elapsedSinceNavigationStart, snapshotInstant, sampleSnapshot]
  · rw [hval]
    norm_num
  · intro f
    rw [hval]
    have hn : nearestHundredths (-1699999998500 : ℚ) = 169999999850000 := by
      apply nearestHundredths_eq <;> norm_num [abs_of_neg]
    rw [pageLoadLine, toFixed2_of_small_neg f _ (by norm_num) (by norm_num), hn]
    decide

/-- Witness for C3: a non-intersecting and an intersecting entry delivered to the
sample cell make it visible. -/
theorem observerCallback_spec_witness :
    (∃ e ∈ [(⟨false, 7⟩ : Entry), ⟨true, 0⟩], e.isIntersecting = true) ∧
    (observerCallback (firstRender sampleProps 0) [⟨false, 7⟩, ⟨true, 0⟩]).isVisible = true := by
  have hex : ∃ e ∈ [(⟨false, 7⟩ : Entry), ⟨true, 0⟩], e.isIntersecting = true :=
    ⟨⟨true, 0⟩, by simp, rfl⟩
  exact ⟨hex, ((observerCallback_spec (firstRender sampleProps 0) _).1 hex).1⟩

/-- Witness for C1: the gallery of the two sample records mounts with every
`src` empty. -/
theorem gallery_src_invariant_witness :
    (∀ el ∈ sampleElements, ∃ s, el.props.src = .str s ∧ s ≠ "") ∧
    ∃ g0, mountAll 0 sampleElements = .ok g0 ∧ g0.length = sampleElements.length ∧
      ∀ c ∈ g0, c.isVisible = false ∧ imgSrc c = .str "" := by
  have h : ∀ el ∈ sampleElements, ∃ s, el.props.src = .str s ∧ s ≠ "" := by
    intro el hel
    simp only [sampleElements, List.mem_cons, List.mem_singleton, List.not_mem_nil,
      or_false] at hel
    rcases hel with rfl | rfl
    · exact ⟨_, rfl, by decide⟩
    · exact ⟨_, rfl, by decide⟩
  obtain ⟨g0, h1, h2, h3, _⟩ := gallery_src_invariant sampleElements h
  exact ⟨h, g0, h1, h2, h3⟩

/-- Witness for C9: the preview URI of the sample cell is not empty, so visible
and loaded is reachable for it. -/
theorem loaded_implies_visible_witness :
    sampleProps.src ≠ .str "" ∧
    ∃ c0, mount sampleProps 0 = .ok c0 ∧
      ∃ c, Reachable c0 c ∧ c.isVisible = true ∧ 0 < c.loadTime := by
  have hne : sampleProps.src ≠ .str "" := by
    intro h
    simp [sampleProps] at h
  obtain ⟨c0, h0, _, _, _, h4⟩ := loaded_implies_visible sampleProps 0
  exact ⟨hne, c0, h0, h4 hne⟩

/-- Witness for C5: the image of the visible sample cell, whose baseline is the
double nearest to 100.005, completes at the double nearest to 1124.01; the
stored duration is the double 1024.005000000000109... and the overlay shows
`Load Time: 1024.01 ms`. -/
theorem handleLoad_overlay_witness :
    isDouble sampleTimedCell.props.startTime = true ∧ isDouble sampleEnd = true ∧
    0 ≤ sampleTimedCell.props.startTime ∧ sampleTimedCell.props.startTime ≤ sampleEnd ∧
    (handleLoad sampleTimedCell sampleEnd).loadTime = 1125905404400763 / 1099511627776 ∧
    ∀ numberToString : ℚ → String,
      overlay numberToString (handleLoad sampleTimedCell sampleEnd) =
        some "Load Time: 1024.01 ms" := by
  have hs : isDouble sampleTimedCell.props.startTime = true := isDouble_sampleStart
  have h0 : 0 ≤ sampleTimedCell.props.startTime := by
    norm_num [sampleTimedCell, sampleTimedProps, sampleStart]
  have hle : sampleTimedCell.props.startTime ≤ sampleEnd := by
    norm_num [sampleTimedCell, sampleTimedProps, sampleStart, sampleEnd]
  have hlt : sampleTimedCell.props.startTime < sampleEnd := by
    norm_num [sampleTimedCell, sampleTimedProps, sampleStart, sampleEnd]
  have hval : (handleLoad sampleTimedCell sampleEnd).loadTime =
      1125905404400763 / 1099511627776 := jsSub_sample
  refine ⟨hs, isDouble_sampleEnd, h0, hle, hval, ?_⟩
  intro f
  obtain ⟨_, _, _, _, _, hshow⟩ :=
    handleLoad_overlay f sampleTimedCell sampleEnd hs isDouble_sampleEnd h0 hle
  obtain ⟨n, hn, _, _, _, htext⟩ := (hshow hlt).2 (by rw [hval]; norm_num)
  have hn' : n = 102401 := by
    rw [hn, hval]
    apply nearestHundredths_eq <;> norm_num [abs_of_pos]
  rw [htext, hn']
  decide

/-- Witness for C6: the cell of the sample record is created at 10, `App` renders
again at 50 and the image completes at 60. -/
theorem baseline_is_last_render_witness :
    isImageRecord sampleRecord = true ∧
    ∃ c0 c, instantiate sampleRecord 10 0 = .ok c0 ∧
      applyUpdates sampleRecord c0 [.appRender 50] = .ok c ∧
      (handleLoad c 60).loadTime = jsSub 60 (lastRenderTime 10 [.appRender 50]) := by
  have h : isImageRecord sampleRecord = true := by decide
  obtain ⟨c0, c, h1, _, h2, _, h3, _⟩ :=
    baseline_is_last_render sampleRecord 10 60 0 [.appRender 50] h
  exact ⟨h, c0, c, h1, h2, h3⟩

/-- Witness for C7: a response of the two sample records renders two elements. -/
theorem fetched_records_render_witness :
    (∀ r ∈ [sampleRecord, sampleRecord2], isImageRecord r = true) ∧
    ∃ st' els, fetchImages initialApp (.parsed (.arr [sampleRecord, sampleRecord2])) = .ok st' ∧
      renderCells st'.images (fun i => (i : ℚ)) = .ok els ∧ els.length = 2 := by
  have h : ∀ r ∈ [sampleRecord, sampleRecord2], isImageRecord r = true := by
    intro r hr
    simp only [List.mem_cons, List.mem_singleton, List.not_mem_nil, or_false] at hr
    rcases hr with rfl | rfl <;> decide
  obtain ⟨st', els, _, h1, _, _, h2, h3, _⟩ :=
    fetched_records_render initialApp [sampleRecord, sampleRecord2] (fun i => (i : ℚ)) h
  exact ⟨h, st', els, h1, h2, h3⟩

/-- Witness for C8: the request of the freshly mounted `App` fails with a network
error. -/
theorem fetch_failure_contained_witness :
    initialApp.images = .arr [] ∧
    ∃ st', fetchImages initialApp (.fetchRejects "TypeError: Failed to fetch") = .ok st' ∧
      st'.images = .arr [] ∧ st'.consoleErrors = ["TypeError: Failed to fetch"] ∧
      renderCells st'.images (fun _ => 0) = .ok [] := by
  obtain ⟨st', h1, h2, h3, h4⟩ :=
    (fetch_failure_contained initialApp (.fetchRejects "TypeError: Failed to fetch")
      (fun _ => 0) rfl).1 _ (Or.inl rfl)
  exact ⟨rfl, st', h1, h2, by simpa [initialApp] using h3, h4⟩

end ImageGallery
